import Mathlib

/-!
Verification of the functional-streams transform library (Batch, Map,
Filter, Reduce) against its design specification.  The per-stage logic in
streams.ts is embedded as pure Lean functions; the external Node streaming
runtime (which feeds one item at a time and waits for the per-item callback
before supplying the next) is modelled by sequential driver functions.
-/

/-- Classification of a JavaScript value as seen by the isPromise probe.
A value is either null, undefined, a plain (non-thenable) value carrying a
payload of type alpha, or a thenable object whose then method eventually
settles: fulfilled with a payload or rejected with an error of type eps. -/
inductive JsVal (alpha eps : Type) where
  | vnull
  | vundefined
  | prim (a : alpha)
  | thenableFulfilled (a : alpha)
  | thenableRejected (e : eps)
deriving DecidableEq

/-- An error raised during a per-item processing step: either an error value
produced by user code, or a TypeError raised by the JavaScript runtime
(reading a property of null or undefined). -/
inductive JsError (eps : Type) where
  | user (e : eps)
  | typeError
deriving DecidableEq

/-- Embedding of isPromise from streams.ts: it evaluates
typeof t.then === "function".  Reading the then property of null or
undefined throws a TypeError under JavaScript semantics; a plain value has
no callable then property; a thenable does. -/
def isPromise {alpha eps : Type} : JsVal alpha eps → Except (JsError eps) Bool
  | .vnull => .error .typeError
  | .vundefined => .error .typeError
  | .prim _ => .ok false
  | .thenableFulfilled _ => .ok true
  | .thenableRejected _ => .ok true

/-- The outcome of invoking a user callback: it either throws synchronously
or returns a JavaScript value (possibly a thenable). -/
inductive CallResult (alpha eps : Type) where
  | throws (e : eps)
  | ret (v : JsVal alpha eps)
deriving DecidableEq

/-- The observable outcome of one Transform per-item step: the stage pushed
a list of outputs and invoked the completion callback (ready for the next
item); or an exception escaped the step synchronously; or the step
subscribed to a thenable that rejects with no rejection handler attached,
so the completion callback is never invoked and the stage stalls. -/
inductive StepResult (upsilon eps : Type) where
  | pushed (outs : List upsilon)
  | syncThrow (e : JsError eps)
  | hang
deriving DecidableEq

/-- Embedding of MapTransform._transform: invoke the map function; if the
result passes the isPromise probe, subscribe with a fulfillment handler
only (push the settled value, then callback); otherwise push the result
directly and callback.  A rejected thenable therefore leaves the callback
uninvoked, and a null or undefined result makes the probe itself throw. -/
def MapTransform._transform {T U eps : Type}
    (mapFunction : T → CallResult U eps) (data : T) : StepResult U eps :=
  match mapFunction data with
  | .throws e => .syncThrow (.user e)
  | .ret .vnull => .syncThrow .typeError
  | .ret .vundefined => .syncThrow .typeError
  | .ret (.prim a) => .pushed [a]
  | .ret (.thenableFulfilled a) => .pushed [a]
  | .ret (.thenableRejected _) => .hang

/-- Embedding of FilterTransform._transform: invoke the predicate; await it
when the isPromise probe says so (fulfillment handler only); the shared
filter continuation pushes the original input item when the test result is
truthy and then invokes the callback.  The truthy parameter embeds
JavaScript truthiness of the predicate result payload. -/
def FilterTransform._transform {T V eps : Type}
    (filterFunction : T → CallResult V eps) (truthy : V → Bool) (data : T) :
    StepResult T eps :=
  match filterFunction data with
  | .throws e => .syncThrow (.user e)
  | .ret .vnull => .syncThrow .typeError
  | .ret .vundefined => .syncThrow .typeError
  | .ret (.prim b) => .pushed (if truthy b then [data] else [])
  | .ret (.thenableFulfilled b) => .pushed (if truthy b then [data] else [])
  | .ret (.thenableRejected _) => .hang

/-- State of a BatchTransform instance: the configured batch size and the
buffer of items not yet emitted. -/
structure BatchTransform (T : Type) where
  _batchSize : Nat
  _buffer : List T
deriving DecidableEq

/-- Embedding of the BatchTransform constructor: stores the size and starts
with an empty buffer. -/
def BatchTransform.new {T : Type} (batchSize : Nat) : BatchTransform T :=
  ⟨batchSize, []⟩

/-- Embedding of BatchTransform._transform: append the item to the buffer;
when the buffer length reaches the batch size, push the whole buffer as one
output and reset the buffer to empty; always invoke the callback.  Returns
the new state and the list of pushed outputs. -/
def BatchTransform._transform {T : Type} (s : BatchTransform T) (data : T) :
    BatchTransform T × List (List T) :=
  let buffer := s._buffer ++ [data]
  if buffer.length = s._batchSize then (⟨s._batchSize, []⟩, [buffer])
  else (⟨s._batchSize, buffer⟩, [])

/-- Embedding of BatchTransform._flush: on end of input, push the buffer as
a final batch when it is non-empty, otherwise push nothing.  The method
contains no assignment, so the state is returned unchanged: in particular
the buffer field is not reset when the final batch is pushed. -/
def BatchTransform._flush {T : Type} (s : BatchTransform T) :
    BatchTransform T × List (List T) :=
  if s._buffer.length > 0 then (s, [s._buffer]) else (s, [])

/-- Driver for a BatchTransform: the upstream producer feeds the items one
at a time (each step completes synchronously), then signals end of input,
which runs the flush.  Collects every pushed batch in order. -/
def BatchTransform.runFrom {T : Type} (s : BatchTransform T) :
    List T → List (List T)
  | [] => s._flush.2
  | x :: rest =>
    let out := s._transform x
    out.2 ++ out.1.runFrom rest

/-- Feeding a whole input sequence through a freshly constructed
BatchTransform of the given size, then ending the input. -/
def BatchTransform.run {T : Type} (batchSize : Nat) (S : List T) :
    List (List T) :=
  (BatchTransform.new batchSize).runFrom S

/-- The terminal outcome of driving a Map or Filter stage over a finite
input: the input was consumed and the stage completed; or a step threw
synchronously; or a step stalled forever on an unhandled rejection.  In the
two failure cases no later item is ever processed. -/
inductive RunOutcome (eps : Type) where
  | completed
  | syncThrew (e : JsError eps)
  | hung
deriving DecidableEq

/-- Driver for a MapTransform: items are processed strictly one at a time;
a new item is supplied only after the previous step invoked its callback.
Returns the outputs pushed downstream, in order, and the terminal
outcome. -/
def MapTransform.run {T U eps : Type} (f : T → CallResult U eps) :
    List T → List U × RunOutcome eps
  | [] => ([], .completed)
  | x :: rest =>
    match MapTransform._transform f x with
    | .pushed outs =>
      let r := MapTransform.run f rest
      (outs ++ r.1, r.2)
    | .syncThrow e => ([], .syncThrew e)
    | .hang => ([], .hung)

/-- Driver for a FilterTransform, analogous to the MapTransform driver. -/
def FilterTransform.run {T V eps : Type} (p : T → CallResult V eps)
    (truthy : V → Bool) : List T → List T × RunOutcome eps
  | [] => ([], .completed)
  | x :: rest =>
    match FilterTransform._transform p truthy x with
    | .pushed outs =>
      let r := FilterTransform.run p truthy rest
      (outs ++ r.1, r.2)
    | .syncThrow e => ([], .syncThrew e)
    | .hang => ([], .hung)

/-- State of a ReduceTransform instance: the accumulator and the internal
error flag. -/
structure ReduceState (R : Type) where
  _cumulative : R
  _errored : Bool
deriving DecidableEq

/-- Outcome of one ReduceTransform._write step: callback invoked with no
error (new state), callback invoked with an error (new state and the
error), or an exception escaped the step synchronously. -/
inductive WriteResult (R eps : Type) where
  | ok (s : ReduceState R)
  | err (s : ReduceState R) (e : eps)
  | syncThrow (s : ReduceState R) (e : JsError eps)
deriving DecidableEq

/-- The state recorded in a WriteResult. -/
def WriteResult.state {R eps : Type} : WriteResult R eps → ReduceState R
  | .ok s => s
  | .err s _ => s
  | .syncThrow s _ => s

/-- Embedding of ReduceTransform._write: invoke the reduce function with the
current accumulator and the item.  A plain result replaces the accumulator
and the callback fires; a thenable is subscribed with both handlers — on
fulfillment the settled value replaces the accumulator and the callback
fires, on rejection the error flag is set and the callback fires with the
error.  A synchronous throw (from the reduce function, or the TypeError
from probing a null or undefined result) escapes the step; the flag and
accumulator are untouched in that case. -/
def ReduceTransform._write {R T eps : Type}
    (reduceFunction : R → T → CallResult R eps) (s : ReduceState R)
    (data : T) : WriteResult R eps :=
  match reduceFunction s._cumulative data with
  | .throws e => .syncThrow s (.user e)
  | .ret .vnull => .syncThrow s .typeError
  | .ret .vundefined => .syncThrow s .typeError
  | .ret (.prim r) => .ok ⟨r, s._errored⟩
  | .ret (.thenableFulfilled r) => .ok ⟨r, s._errored⟩
  | .ret (.thenableRejected e) => .err ⟨s._cumulative, true⟩ e

/-- Terminal event of the underlying writable stream: a finish event after
all input was consumed cleanly, or an error event.  The error event arises
from the callback being invoked with an error, or from the runtime turning
an exception thrown out of the write step into the stream error signal
(streams.ts leaves such exceptions to the runtime; the specification treats
every callback fault as the stage's own fatal error signal). -/
inductive StreamEnd (eps : Type) where
  | finishEvent
  | errorEvent (e : JsError eps)
deriving DecidableEq

/-- Driver for a ReduceTransform as a sink: items are written one at a
time, each fully processed before the next; the run stops at the first
write that does not complete cleanly, and otherwise ends with the finish
event. -/
def ReduceTransform.runFrom {R T eps : Type}
    (g : R → T → CallResult R eps) :
    ReduceState R → List T → ReduceState R × StreamEnd eps
  | s, [] => (s, .finishEvent)
  | s, x :: rest =>
    match ReduceTransform._write g s x with
    | .ok s2 => ReduceTransform.runFrom g s2 rest
    | .err s2 e => (s2, .errorEvent (.user e))
    | .syncThrow s2 e => (s2, .errorEvent e)

/-- Settle-once future state.  Modelled from the spec: the source of the
promise-native-deferred package is not part of this repository (only its
type declaration is); the spec describes CompletionFuture as wrapping
exactly one of pending, fulfilled, rejected, with at most one transition
out of pending, immutable afterwards, which matches native promise
semantics. -/
inductive FutureState (R eps : Type) where
  | pending
  | fulfilled (r : R)
  | rejected (e : eps)
deriving DecidableEq

/-- Modelled from the spec: Deferred.resolve settles a pending future with
fulfillment and is a no-op on an already settled future. -/
def Deferred.resolve {R eps : Type} :
    FutureState R eps → R → FutureState R eps
  | .pending, r => .fulfilled r
  | s, _ => s

/-- Modelled from the spec: Deferred.reject settles a pending future with
rejection and is a no-op on an already settled future. -/
def Deferred.reject {R eps : Type} :
    FutureState R eps → eps → FutureState R eps
  | .pending, e => .rejected e
  | s, _ => s

/-- Embedding of the event handlers attached in the ReduceTransform
constructor: on the finish event, resolve the deferred with the current
accumulator unless the error flag is set; on the error event, reject the
deferred with the error. -/
def ReduceTransform.onTerminal {R eps : Type} (s : ReduceState R)
    (ev : StreamEnd eps) (fut : FutureState R (JsError eps)) :
    FutureState R (JsError eps) :=
  match ev with
  | .finishEvent =>
    if s._errored then fut else Deferred.resolve fut s._cumulative
  | .errorEvent e => Deferred.reject fut e

/-- Complete run of a ReduceTransform constructed with the given reduce
function and initial accumulator, fed the whole input sequence and then
end of input: final internal state together with the final state of its
completion future. -/
def ReduceTransform.run {R T eps : Type} (g : R → T → CallResult R eps)
    (begin0 : R) (S : List T) :
    ReduceState R × FutureState R (JsError eps) :=
  let p := ReduceTransform.runFrom g ⟨begin0, false⟩ S
  (p.1, ReduceTransform.onTerminal p.1 p.2 .pending)

/-- Concatenating every batch pushed during a run reproduces the buffered
items followed by the remaining input, for any starting buffer. -/
theorem BatchTransform.runFrom_flatten {T : Type} (k : Nat) (S buf : List T) :
    (BatchTransform.runFrom ⟨k, buf⟩ S).flatten = buf ++ S := by
  induction S generalizing buf with
  | nil =>
    by_cases h : buf.length > 0
    · simp [BatchTransform.runFrom, BatchTransform._flush, h]
    · have hb : buf = [] := List.length_eq_zero.mp (by omega)
      simp [BatchTransform.runFrom, BatchTransform._flush, hb]
  | cons x rest ih =>
    simp only [BatchTransform.runFrom, BatchTransform._transform]
    split
    · simp [ih]
    · simp [ih]

/-- Every batch pushed during a run is non-empty and no longer than the
batch size, provided the starting buffer respects the invariant. -/
theorem BatchTransform.runFrom_size_bounds {T : Type} (k : Nat) (hk : 0 < k)
    (S : List T) :
    ∀ buf : List T, buf.length < k →
      ∀ b ∈ BatchTransform.runFrom ⟨k, buf⟩ S, 0 < b.length ∧ b.length ≤ k := by
  induction S with
  | nil =>
    intro buf hbuf b hb
    by_cases h : buf.length > 0
    · simp [BatchTransform.runFrom, BatchTransform._flush, h] at hb
      subst hb; exact ⟨h, Nat.le_of_lt hbuf⟩
    · simp [BatchTransform.runFrom, BatchTransform._flush, h] at hb
  | cons x rest ih =>
    intro buf hbuf b hb
    simp only [BatchTransform.runFrom, BatchTransform._transform] at hb
    split at hb
    case isTrue h =>
      simp only [List.length_append, List.length_cons, List.length_nil] at h
      simp only [List.singleton_append, List.mem_cons] at hb
      rcases hb with hb | hb
      · subst hb
        simp only [List.length_append, List.length_cons, List.length_nil]
        omega
      · exact ih [] (by simpa using hk) b hb
    case isFalse h =>
      simp only [List.length_append, List.length_cons, List.length_nil] at h
      simp only [List.nil_append] at hb
      exact ih (buf ++ [x]) (by simp only [List.length_append,
        List.length_cons, List.length_nil]; omega) b hb

/-- Every batch pushed during a run except possibly the final one has
length exactly the batch size. -/
theorem BatchTransform.runFrom_dropLast_size {T : Type} (k : Nat) (hk : 0 < k)
    (S : List T) :
    ∀ buf : List T, buf.length < k →
      ∀ b ∈ (BatchTransform.runFrom ⟨k, buf⟩ S).dropLast, b.length = k := by
  induction S with
  | nil =>
    intro buf hbuf b hb
    by_cases h : buf.length > 0 <;>
      simp [BatchTransform.runFrom, BatchTransform._flush, h] at hb
  | cons x rest ih =>
    intro buf hbuf b hb
    simp only [BatchTransform.runFrom, BatchTransform._transform] at hb
    split at hb
    case isTrue h =>
      simp only [List.length_append, List.length_cons, List.length_nil] at h
      simp only [List.singleton_append] at hb
      rcases hrest : BatchTransform.runFrom (⟨k, []⟩ : BatchTransform T) rest
        with _ | ⟨y, ys⟩
      · rw [hrest] at hb; simp at hb
      · rw [hrest] at hb
        rw [List.dropLast_cons₂] at hb
        rcases List.mem_cons.mp hb with hb2 | hb2
        · subst hb2
          simp only [List.length_append, List.length_cons, List.length_nil]
          omega
        · exact ih [] (by simpa using hk) b (by rw [hrest]; exact hb2)
    case isFalse h =>
      simp only [List.length_append, List.length_cons, List.length_nil] at h
      simp only [List.nil_append] at hb
      exact ih (buf ++ [x]) (by simp only [List.length_append,
        List.length_cons, List.length_nil]; omega) b hb

/-- A run pushes at least one batch whenever the starting buffer and the
remaining input together hold at least one item. -/
theorem BatchTransform.runFrom_ne_nil {T : Type} (k : Nat) (S : List T) :
    ∀ buf : List T, 0 < buf.length + S.length →
      BatchTransform.runFrom ⟨k, buf⟩ S ≠ [] := by
  induction S with
  | nil =>
    intro buf hpos
    simp only [List.length_nil, Nat.add_zero] at hpos
    simp [BatchTransform.runFrom, BatchTransform._flush, hpos]
  | cons x rest ih =>
    intro buf hpos
    simp only [BatchTransform.runFrom, BatchTransform._transform]
    split
    · simp
    · simp only [List.nil_append]
      exact ih (buf ++ [x]) (by simp only [List.length_append,
        List.length_cons, List.length_nil]; omega)

/-- The number of batches pushed during a run is the ceiling of the number
of items divided by the batch size. -/
theorem BatchTransform.runFrom_length {T : Type} (k : Nat) (hk : 0 < k)
    (S : List T) :
    ∀ buf : List T, buf.length < k →
      (BatchTransform.runFrom ⟨k, buf⟩ S).length
        = (buf.length + S.length + k - 1) / k := by
  induction S with
  | nil =>
    intro buf hbuf
    by_cases h : buf.length > 0
    · simp only [BatchTransform.runFrom, BatchTransform._flush, h, if_pos,
        List.length_cons, List.length_nil, List.length_nil, Nat.add_zero]
      have h3 : buf.length + k - 1 = (buf.length - 1) + k := by omega
      rw [h3, Nat.add_div_right _ hk, Nat.div_eq_of_lt (by omega)]
    · have hb : buf = [] := List.length_eq_zero.mp (by omega)
      subst hb
      have h4 : ((0:Nat) + 0 + k - 1) / k = 0 := Nat.div_eq_of_lt (by omega)
      simpa [BatchTransform.runFrom, BatchTransform._flush] using h4.symm
  | cons x rest ih =>
    intro buf hbuf
    simp only [BatchTransform.runFrom, BatchTransform._transform]
    split
    case isTrue h =>
      simp only [List.length_append, List.length_cons, List.length_nil] at h
      simp only [List.singleton_append, List.length_cons]
      rw [ih [] (by simpa using hk)]
      simp only [List.length_nil, Nat.zero_add]
      have h3 : buf.length + (rest.length + 1) + k - 1
          = (rest.length + k - 1) + k := by omega
      rw [h3, Nat.add_div_right _ hk]
    case isFalse h =>
      simp only [List.length_append, List.length_cons, List.length_nil] at h
      simp only [List.nil_append, List.length_cons]
      rw [ih (buf ++ [x]) (by simp only [List.length_append,
        List.length_cons, List.length_nil]; omega)]
      have h3 : buf.length + [x].length + rest.length + k - 1
          = buf.length + (rest.length + 1) + k - 1 := by
        simp only [List.length_cons, List.length_nil]; omega
      rw [List.length_append, h3]

/-- The final batch pushed during a run has length equal to the total item
count modulo the batch size, or the full batch size when that modulus is
zero. -/
theorem BatchTransform.runFrom_getLast {T : Type} (k : Nat) (hk : 0 < k)
    (S : List T) :
    ∀ buf : List T, buf.length < k → 0 < buf.length + S.length →
      ∀ l, (BatchTransform.runFrom ⟨k, buf⟩ S).getLast? = some l →
        l.length = if (buf.length + S.length) % k = 0 then k
          else (buf.length + S.length) % k := by
  induction S with
  | nil =>
    intro buf hbuf hpos l hl
    simp only [List.length_nil, Nat.add_zero] at hpos ⊢
    simp [BatchTransform.runFrom, BatchTransform._flush, hpos] at hl
    subst hl
    rw [Nat.mod_eq_of_lt hbuf, if_neg (by omega)]
  | cons x rest ih =>
    intro buf hbuf hpos l hl
    simp only [BatchTransform.runFrom, BatchTransform._transform] at hl
    split at hl
    case isTrue h =>
      simp only [List.length_append, List.length_cons, List.length_nil] at h
      rcases rest with _ | ⟨y, ys⟩
      · simp [BatchTransform.runFrom, BatchTransform._flush] at hl
        subst hl
        have h4 : (buf.length + [x].length) % k = 0 := by
          have h9 : buf.length + [x].length = k := by
            simp only [List.length_cons, List.length_nil]; omega
          rw [h9, Nat.mod_self]
        rw [h4, if_pos rfl]
        simp only [List.length_append, List.length_cons, List.length_nil]
        omega
      · have hne := BatchTransform.runFrom_ne_nil k (y :: ys) [] (by simp)
        rcases hrest : BatchTransform.runFrom (⟨k, []⟩ : BatchTransform T)
            (y :: ys) with _ | ⟨t, ts⟩
        · exact absurd hrest hne
        · rw [hrest] at hl
          rw [List.singleton_append, List.getLast?_cons_cons] at hl
          have h5 := ih [] (by simpa using hk) (by simp) l
            (by rw [hrest]; exact hl)
          simp only [List.length_nil, Nat.zero_add, List.length_cons] at h5
          have h6 : (buf.length + (y :: ys).length + 1) % k
              = (y :: ys).length % k := by
            have h7 : buf.length + (y :: ys).length + 1
                = (y :: ys).length + k := by omega
            rw [h7, Nat.add_mod_right ..]
          simp only [List.length_cons] at h6 ⊢
          rw [show buf.length + (ys.length + 1 + 1)
              = buf.length + (ys.length + 1) + 1 by omega, h6]
          exact h5
    case isFalse h =>
      simp only [List.length_append, List.length_cons, List.length_nil] at h
      simp only [List.nil_append] at hl
      have h5 := ih (buf ++ [x]) (by simp only [List.length_append,
        List.length_cons, List.length_nil]; omega)
        (by simp only [List.length_append, List.length_cons,
          List.length_nil]; omega) l hl
      simp only [List.length_append, List.length_cons, List.length_nil] at h5
      simp only [List.length_cons]
      rw [show buf.length + (rest.length + 1)
          = buf.length + (0 + 1) + rest.length by omega]
      exact h5

/-- C3 counterexample: the claim says the buffer is cleared whenever a full
batch or the final flush batch is emitted, but _flush pushes the buffer as
the final batch without resetting the buffer field: after flushing the
one-item buffer of a Batch(2) stage the buffer still holds that item. -/
theorem batch_flush_keeps_buffer_counterexample :
    (BatchTransform._flush (⟨2, [7]⟩ : BatchTransform Nat)).2 = [[7]]
    ∧ ¬ (BatchTransform._flush (⟨2, [7]⟩ : BatchTransform Nat)).1._buffer = [] := by
  constructor
  · rfl
  · decide

/-- C3 (amended): for a BatchStage with positive batch size, the buffer
length stays in the interval from zero inclusive to the batch size
exclusive between transform calls; whenever a full batch is emitted by a
transform call the emitted batch is the entire buffer including the new
item and the buffer is reset to empty (never partially cleared); the final
flush emits the entire remaining buffer as one batch but leaves the buffer
field unchanged (the source performs no reset there, which is unobservable
because the stage terminates). -/
theorem batch_buffer_invariant {T : Type} (k : Nat) (buf : List T) (x : T)
    (hk : 0 < k) (hbuf : buf.length < k) :
    ((BatchTransform.new k : BatchTransform T)._buffer.length < k)
    ∧ ((BatchTransform._transform ⟨k, buf⟩ x).1._buffer.length < k)
    ∧ ((BatchTransform._transform ⟨k, buf⟩ x).2 ≠ [] →
        (BatchTransform._transform ⟨k, buf⟩ x).2 = [buf ++ [x]]
          ∧ (BatchTransform._transform ⟨k, buf⟩ x).1._buffer = [])
    ∧ ((BatchTransform._transform ⟨k, buf⟩ x).2 = [] →
        (BatchTransform._transform ⟨k, buf⟩ x).1._buffer = buf ++ [x])
    ∧ ((BatchTransform._flush ⟨k, buf⟩).2 ≠ [] →
        (BatchTransform._flush ⟨k, buf⟩).2 = [buf])
    ∧ ((BatchTransform._flush ⟨k, buf⟩).1 = ⟨k, buf⟩) := by
  refine ⟨by simpa [BatchTransform.new] using hk, ?_, ?_, ?_, ?_, ?_⟩ <;>
      simp only [BatchTransform._transform, BatchTransform._flush] <;> split
  · simpa using hk
  · simp only [List.length_append, List.length_cons, List.length_nil]
    next h =>
      simp only [List.length_append, List.length_cons, List.length_nil] at h
      omega
  · intro _; exact ⟨rfl, rfl⟩
  · intro h2; simp at h2
  · intro h2; simp at h2
  · intro _; rfl
  · intro _; rfl
  · intro h2; simp at h2
  · rfl
  · rfl

/-- Witness for C3 at a concrete input: a Batch(3) stage whose buffer holds
two items receives a third; the full batch is emitted whole and the new
buffer length is below the batch size. -/
theorem batch_buffer_invariant_witness :
    ((BatchTransform._transform (⟨3, [0, 1]⟩ : BatchTransform Nat) 2).1._buffer.length < 3)
    ∧ (BatchTransform._transform (⟨3, [0, 1]⟩ : BatchTransform Nat) 2).2 = [[0, 1, 2]] :=
  ⟨(batch_buffer_invariant 3 [0, 1] 2 (by decide) (by decide)).2.1,
    ((batch_buffer_invariant 3 [0, 1] 2 (by decide) (by decide)).2.2.1
      (by decide)).1⟩

/-- C4: for every finite input S and positive batch size k, Batch(k)
followed by end of input emits exactly the ceiling of the item count over k
batches, their concatenation in order is S, every batch but the last has
size exactly k, every batch is non-empty and no larger than k, the last
batch has size S.length mod k (or k when k divides evenly), and an empty
input emits no batch. -/
theorem batch_run_correct {T : Type} (k : Nat) (S : List T) (hk : 0 < k) :
    (BatchTransform.run k S).length = (S.length + k - 1) / k
    ∧ (BatchTransform.run k S).flatten = S
    ∧ (∀ b ∈ (BatchTransform.run k S).dropLast, b.length = k)
    ∧ (∀ b ∈ BatchTransform.run k S, 0 < b.length ∧ b.length ≤ k)
    ∧ (∀ l, (BatchTransform.run k S).getLast? = some l →
        l.length = if S.length % k = 0 then k else S.length % k)
    ∧ (S = [] → BatchTransform.run k S = []) := by
  refine ⟨?_, ?_, ?_, ?_, ?_, ?_⟩
  · have h1 := BatchTransform.runFrom_length k hk S [] (by simpa using hk)
    simpa [BatchTransform.run, BatchTransform.new] using h1
  · simpa [BatchTransform.run, BatchTransform.new] using
      BatchTransform.runFrom_flatten k S []
  · intro b hb
    exact BatchTransform.runFrom_dropLast_size k hk S [] (by simpa using hk) b hb
  · intro b hb
    exact BatchTransform.runFrom_size_bounds k hk S [] (by simpa using hk) b hb
  · intro l hl
    rcases S with _ | ⟨y, ys⟩
    · simp [BatchTransform.run, BatchTransform.new, BatchTransform.runFrom,
        BatchTransform._flush] at hl
    · have h2 := BatchTransform.runFrom_getLast k hk (y :: ys) []
        (by simpa using hk) (by simp) l hl
      simpa using h2
  · intro hS; subst hS; rfl

/-- Witness for C4 at the concrete scenario from the spec: seven items
through Batch(3) yield the three batches [0,1,2], [3,4,5], [6]. -/
theorem batch_run_correct_witness :
    BatchTransform.run 3 [0, 1, 2, 3, 4, 5, 6] = [[0, 1, 2], [3, 4, 5], [6]]
    ∧ (BatchTransform.run 3 [0, 1, 2, 3, 4, 5, 6]).flatten = [0, 1, 2, 3, 4, 5, 6]
    ∧ (BatchTransform.run 3 [0, 1, 2, 3, 4, 5, 6]).length = (7 + 3 - 1) / 3 :=
  ⟨by decide, (batch_run_correct 3 [0, 1, 2, 3, 4, 5, 6] (by decide)).2.1,
    (batch_run_correct 3 [0, 1, 2, 3, 4, 5, 6] (by decide)).1⟩

/-- C6: for a total side-effect-free map function (embedded as a Lean
function whose result is returned as a plain value or as an awaitable that
fulfills with that value), MapStage emits exactly one output per input, in
input order, and the collected outputs equal the element-wise application
of the function to the input sequence; the run completes. -/
theorem map_elementwise {T U eps : Type} (f : T → CallResult U eps)
    (f0 : T → U) (S : List T)
    (hf : ∀ x, f x = .ret (.prim (f0 x))
        ∨ f x = .ret (.thenableFulfilled (f0 x))) :
    MapTransform.run f S = (S.map f0, .completed) := by
  induction S with
  | nil => rfl
  | cons x rest ih =>
    rcases hf x with h | h <;>
      simp [MapTransform.run, MapTransform._transform, h, ih]

/-- Witness for C6 at the concrete scenario from the spec, with a doubling
map function applied synchronously. -/
theorem map_elementwise_witness :
    MapTransform.run
        (fun n : Nat => (CallResult.ret (JsVal.prim (n * 2)) : CallResult Nat String))
        [0, 1, 2, 3] = ([0, 2, 4, 6], .completed) :=
  map_elementwise _ (fun n => n * 2) [0, 1, 2, 3] (fun _ => Or.inl rfl)

/-- C7: for a total predicate (embedded as a Lean function whose result is
returned as a plain value or as an awaitable that fulfills with it),
FilterStage emits exactly the input items whose test result is truthy, in
their original relative order, each emitted item being the original input
item itself; falsy results produce no output; the run completes. -/
theorem filter_matches_predicate {T V eps : Type} (p : T → CallResult V eps)
    (truthy : V → Bool) (p0 : T → V) (S : List T)
    (hp : ∀ x, p x = .ret (.prim (p0 x))
        ∨ p x = .ret (.thenableFulfilled (p0 x))) :
    FilterTransform.run p truthy S
      = (S.filter (fun x => truthy (p0 x)), .completed) := by
  induction S with
  | nil => rfl
  | cons x rest ih =>
    rcases hp x with h | h <;> by_cases ht : truthy (p0 x) <;>
      simp [FilterTransform.run, FilterTransform._transform, h, ht, ih,
        List.filter_cons]

/-- Witness for C7 at the concrete scenario from the spec: an evenness
predicate keeps 0, 2, 4 out of the first six naturals. -/
theorem filter_matches_predicate_witness :
    FilterTransform.run
        (fun n : Nat => (CallResult.ret (JsVal.prim (n % 2 = 0)) : CallResult Prop String))
        (fun _ => true) [0, 1, 2] = ([0, 1, 2], .completed)
    ∧ FilterTransform.run
        (fun n : Nat => (CallResult.ret (JsVal.prim (decide (n % 2 = 0))) : CallResult Bool String))
        (fun b => b) [0, 1, 2, 3, 4, 5] = ([0, 2, 4], .completed) :=
  ⟨filter_matches_predicate _ (fun _ => true) (fun n => n % 2 = 0) [0, 1, 2]
      (fun _ => Or.inl rfl),
    by
      have h := filter_matches_predicate
        (fun n : Nat => (CallResult.ret (JsVal.prim (decide (n % 2 = 0))) : CallResult Bool String))
        (fun b => b) (fun n => decide (n % 2 = 0)) [0, 1, 2, 3, 4, 5]
        (fun _ => Or.inl rfl)
      simpa using h⟩

/-- C1: evaluation of the code at the failing input.  When the map or
filter callback returns an awaitable that rejects, the stage subscribes
with a fulfillment handler only, so the rejection is unhandled: the
completion callback never fires, the stage stalls, no error signal carrying
the original error is emitted, and the remaining input items are never
processed.  This contradicts the claimed fatal-pipeline-error termination;
the stalled outcome below is the code behaviour. -/
theorem map_filter_rejected_thenable_hangs :
    MapTransform.run
        (fun _ : Nat => (CallResult.ret (JsVal.thenableRejected "boom") : CallResult Nat String))
        [7, 8] = ([], RunOutcome.hung)
    ∧ FilterTransform.run
        (fun _ : Nat => (CallResult.ret (JsVal.thenableRejected "boom") : CallResult Bool String))
        (fun b => b) [7, 8] = ([], RunOutcome.hung) :=
  ⟨rfl, rfl⟩

/-- C9: a null or undefined callback result is not emitted and is not
treated as falsy; the isPromise probe reads the then property of the result
without a null guard, so the per-item step throws a TypeError, for both
MapStage and FilterStage. -/
theorem null_callback_result_typeerror {T U eps : Type} (x : T) :
    isPromise (JsVal.vnull : JsVal U eps) = .error .typeError
    ∧ isPromise (JsVal.vundefined : JsVal U eps) = .error .typeError
    ∧ MapTransform._transform
        (fun _ : T => (CallResult.ret .vnull : CallResult U eps)) x
        = .syncThrow .typeError
    ∧ MapTransform._transform
        (fun _ : T => (CallResult.ret .vundefined : CallResult U eps)) x
        = .syncThrow .typeError
    ∧ FilterTransform._transform
        (fun _ : T => (CallResult.ret .vnull : CallResult Bool eps))
        (fun b => b) x = .syncThrow .typeError
    ∧ FilterTransform._transform
        (fun _ : T => (CallResult.ret .vundefined : CallResult Bool eps))
        (fun b => b) x = .syncThrow .typeError
    ∧ MapTransform.run
        (fun _ : T => (CallResult.ret .vnull : CallResult U eps)) [x]
        = ([], .syncThrew .typeError) :=
  ⟨rfl, rfl, rfl, rfl, rfl, rfl, rfl⟩

/-- C10: the await-or-emit decision is thenable duck-typing through the
shared isPromise probe.  A value with a callable then property tests true
and is awaited: Map emits its settled value (a rejected thenable is only
subscribed, never emitted), Filter tests the settled value, Reduce installs
the settled value as the accumulator.  A plain value tests false and is
used synchronously as-is.  All three stages branch on the same probe. -/
theorem thenable_duck_typing {T U V R eps : Type} (x : T) (a : U) (e : eps)
    (b : V) (truthy : V → Bool) (z r : R) :
    isPromise (JsVal.thenableFulfilled a : JsVal U eps) = .ok true
    ∧ isPromise (JsVal.thenableRejected e : JsVal U eps) = .ok true
    ∧ isPromise (JsVal.prim a : JsVal U eps) = .ok false
    ∧ MapTransform._transform
        (fun _ : T => (CallResult.ret (JsVal.thenableFulfilled a) : CallResult U eps)) x
        = .pushed [a]
    ∧ MapTransform._transform
        (fun _ : T => (CallResult.ret (JsVal.prim a) : CallResult U eps)) x
        = .pushed [a]
    ∧ MapTransform._transform
        (fun _ : T => (CallResult.ret (JsVal.thenableRejected e) : CallResult U eps)) x
        = .hang
    ∧ FilterTransform._transform
        (fun _ : T => (CallResult.ret (JsVal.thenableFulfilled b) : CallResult V eps)) truthy x
        = .pushed (if truthy b then [x] else [])
    ∧ FilterTransform._transform
        (fun _ : T => (CallResult.ret (JsVal.prim b) : CallResult V eps)) truthy x
        = .pushed (if truthy b then [x] else [])
    ∧ ReduceTransform._write
        (fun _ _ : R => (CallResult.ret (JsVal.thenableFulfilled r) : CallResult R eps))
        ⟨z, false⟩ (z : R) = .ok ⟨r, false⟩
    ∧ ReduceTransform._write
        (fun _ _ : R => (CallResult.ret (JsVal.prim r) : CallResult R eps))
        ⟨z, false⟩ (z : R) = .ok ⟨r, false⟩
    ∧ ReduceTransform._write
        (fun _ _ : R => (CallResult.ret (JsVal.thenableRejected e) : CallResult R eps))
        ⟨z, false⟩ (z : R) = .err ⟨z, true⟩ e :=
  ⟨rfl, rfl, rfl, rfl, rfl, rfl, rfl, rfl, rfl, rfl, rfl⟩

/-- Running a ReduceTransform over a prefix on which the reduce function
succeeds with plain or fulfilled-awaitable results folds that prefix into
the accumulator and continues with the remaining input. -/
theorem ReduceTransform.runFrom_append_pure {R T eps : Type}
    (g : R → T → CallResult R eps) (g0 : R → T → R) (S1 : List T)
    (hg : ∀ r y, y ∈ S1 → g r y = .ret (.prim (g0 r y))
        ∨ g r y = .ret (.thenableFulfilled (g0 r y))) :
    ∀ (z : R) (err : Bool) (rest : List T),
      ReduceTransform.runFrom g ⟨z, err⟩ (S1 ++ rest)
        = ReduceTransform.runFrom g ⟨S1.foldl g0 z, err⟩ rest := by
  induction S1 with
  | nil => intro z err rest; rfl
  | cons y ys ih =>
    intro z err rest
    have h2 := ih (fun r w hw => hg r w (by simp [hw])) (g0 z y) err rest
    rcases hg z y (by simp) with h | h <;>
      simp [ReduceTransform.runFrom, ReduceTransform._write, h, h2]

/-- C5: for a combining function that never fails (its result arrives as a
plain value or as an awaitable that fulfills), feeding a finite input and
then end of input leaves the accumulator at the left fold of the input and
settles the completion future with fulfillment at that same fold; the
driver processes each item fully before the next begins. -/
theorem reduce_foldl {R T eps : Type} (g : R → T → CallResult R eps)
    (g0 : R → T → R) (z : R) (S : List T)
    (hg : ∀ r x, g r x = .ret (.prim (g0 r x))
        ∨ g r x = .ret (.thenableFulfilled (g0 r x))) :
    ReduceTransform.run g z S
      = (⟨S.foldl g0 z, false⟩, .fulfilled (S.foldl g0 z)) := by
  have h1 := ReduceTransform.runFrom_append_pure g g0 S
    (fun r y _ => hg r y) z false []
  rw [List.append_nil] at h1
  simp [ReduceTransform.run, h1, ReduceTransform.runFrom,
    ReduceTransform.onTerminal, Deferred.resolve]

/-- Witness for C5 at the concrete inputs of the spec scenario: summing
[1, 2, 3] from 0 fulfills the future with 6. -/
theorem reduce_foldl_witness :
    ReduceTransform.run
        (fun r x : Nat => (CallResult.ret (JsVal.prim (r + x)) : CallResult Nat String))
        0 [1, 2, 3]
      = (⟨6, false⟩, .fulfilled 6) := by
  rw [reduce_foldl
    (fun r x : Nat => (CallResult.ret (JsVal.prim (r + x)) : CallResult Nat String))
    (fun r x => r + x) 0 [1, 2, 3] (fun _ _ => Or.inl rfl)]
  decide

/-- C2 counterexample: the claim requires the internal error flag to be
marked whenever the combining function fails, including a synchronous
throw; but on a synchronous throw the write step lets the exception escape
and the error flag stays false. -/
theorem reduce_sync_throw_flag_counterexample :
    ¬ ((ReduceTransform._write
        (fun _ _ : Nat => (CallResult.throws "boom" : CallResult Nat String))
        ⟨0, false⟩ 0).state._errored = true) := by decide

/-- C2 (amended): when the combining function fails on an item after a
cleanly folded prefix, the stage stops accepting further items (the result
does not depend on the remaining input) and the completion future rejects
with exactly the original error; the accumulator never reflects the
failing item or any later item.  The internal error flag is marked only
when the returned awaitable rejects; on a synchronous throw the exception
escapes the write step (the runtime turns it into the stream error signal)
and the flag stays unset. -/
theorem reduce_failure_behaviour {R T eps : Type} (g : R → T → CallResult R eps)
    (g0 : R → T → R) (z : R) (S1 S2 : List T) (x : T) (e : eps)
    (hpre : ∀ r y, y ∈ S1 → g r y = .ret (.prim (g0 r y))
        ∨ g r y = .ret (.thenableFulfilled (g0 r y))) :
    (g (S1.foldl g0 z) x = .ret (.thenableRejected e) →
      ReduceTransform.run g z (S1 ++ x :: S2)
        = (⟨S1.foldl g0 z, true⟩, .rejected (.user e)))
    ∧ (g (S1.foldl g0 z) x = .throws e →
      ReduceTransform.run g z (S1 ++ x :: S2)
        = (⟨S1.foldl g0 z, false⟩, .rejected (.user e))) := by
  have h1 := ReduceTransform.runFrom_append_pure g g0 S1 hpre z false (x :: S2)
  constructor <;> intro hx <;>
    simp [ReduceTransform.run, h1, ReduceTransform.runFrom,
      ReduceTransform._write, hx, ReduceTransform.onTerminal, Deferred.reject]

/-- Witness for C2 at the spec scenario: a combining function whose
awaitable rejects on the item 3 (the fourth item, zero-indexed three) of
[0, 1, 2, 3, 4, 5]; the future rejects with that error, the flag is set,
and the accumulator holds the fold of the first three items only. -/
theorem reduce_failure_behaviour_witness :
    ReduceTransform.run
        (fun r y : Nat => if y = 3
          then (CallResult.ret (JsVal.thenableRejected "err3") : CallResult Nat String)
          else CallResult.ret (JsVal.prim (r + y)))
        0 ([0, 1, 2] ++ 3 :: [4, 5])
      = (⟨3, true⟩, .rejected (.user "err3")) := by
  rw [(reduce_failure_behaviour
      (fun r y : Nat => if y = 3
        then (CallResult.ret (JsVal.thenableRejected "err3") : CallResult Nat String)
        else CallResult.ret (JsVal.prim (r + y)))
      (fun r y => r + y) 0 [0, 1, 2] [4, 5] 3 "err3"
      (by intro r y hy; fin_cases hy <;> exact Or.inl rfl)).1 (by decide)]
  decide

/-- A write step that completes cleanly leaves the error flag unchanged. -/
theorem ReduceTransform.write_ok_errored {R T eps : Type}
    (g : R → T → CallResult R eps) (s s2 : ReduceState R) (data : T)
    (h : ReduceTransform._write g s data = .ok s2) :
    s2._errored = s._errored := by
  unfold ReduceTransform._write at h
  split at h
  any_goals exact WriteResult.noConfusion h
  all_goals exact (congrArg ReduceState._errored (WriteResult.ok.inj h)).symm

/-- A run that ends with the finish event never set the error flag along
the way: the final flag equals the starting flag. -/
theorem ReduceTransform.runFrom_finish_errored {R T eps : Type}
    (g : R → T → CallResult R eps) (S : List T) :
    ∀ s : ReduceState R,
      (ReduceTransform.runFrom g s S).2 = .finishEvent →
      (ReduceTransform.runFrom g s S).1._errored = s._errored := by
  induction S with
  | nil => intro s _; rfl
  | cons x rest ih =>
    intro s hfin
    simp only [ReduceTransform.runFrom] at hfin ⊢
    rcases hw : ReduceTransform._write g s x with s2 | ⟨s2, e⟩ | ⟨s2, e⟩
    · rw [hw] at hfin
      exact (ih s2 hfin).trans (ReduceTransform.write_ok_errored g s s2 x hw)
    · rw [hw] at hfin
      exact StreamEnd.noConfusion hfin
    · rw [hw] at hfin
      exact StreamEnd.noConfusion hfin

/-- C8: on every terminating execution the completion future of a
ReduceStage is settled — fulfilled or rejected, one single outcome held
immutably by the settled state — and settle operations on an already
settled future change nothing, so the pending-to-settled transition happens
at most once and every caller observes the same single outcome. -/
theorem completion_future_settles_once {R T eps : Type}
    (g : R → T → CallResult R eps) (z : R) (S : List T) :
    (ReduceTransform.run g z S).2 ≠ FutureState.pending
    ∧ (∀ fut : FutureState R (JsError eps), fut ≠ .pending →
        (∀ r, Deferred.resolve fut r = fut)
          ∧ (∀ e, Deferred.reject fut e = fut)) := by
  constructor
  · simp only [ReduceTransform.run]
    rcases hev : (ReduceTransform.runFrom g ⟨z, false⟩ S).2 with _ | e
    · have herr := ReduceTransform.runFrom_finish_errored g S ⟨z, false⟩ hev
      simp [ReduceTransform.onTerminal, hev, herr, Deferred.resolve]
    · simp [ReduceTransform.onTerminal, hev, Deferred.reject]
  · intro fut hf
    rcases fut with _ | r | e
    · exact absurd rfl hf
    · exact ⟨fun _ => rfl, fun _ => rfl⟩
    · exact ⟨fun _ => rfl, fun _ => rfl⟩

/-- Witness for C8: a concrete two-item summing run settles its future (to
fulfillment with 3), and a settled future ignores a further resolve. -/
theorem completion_future_settles_once_witness :
    (ReduceTransform.run
        (fun r x : Nat => (CallResult.ret (JsVal.prim (r + x)) : CallResult Nat String))
        0 [1, 2]).2 ≠ FutureState.pending
    ∧ Deferred.resolve (FutureState.fulfilled 3 : FutureState Nat (JsError String)) 9
        = FutureState.fulfilled 3 :=
  ⟨(completion_future_settles_once
      (fun r x : Nat => (CallResult.ret (JsVal.prim (r + x)) : CallResult Nat String))
      0 [1, 2]).1,
    ((completion_future_settles_once
      (fun r x : Nat => (CallResult.ret (JsVal.prim (r + x)) : CallResult Nat String))
      0 [1, 2]).2 (FutureState.fulfilled 3) (by decide)).1 9⟩
